import Mathlib

/-!
# A file-backed user store (`main.go`): shallow embedding and verified properties

The program keeps an ordered collection of user records in one JSON file and
offers four operations on it (`list`, `add`, `remove`, `findById`), dispatched
by `Perform`.

Modelling conventions.

* A Go `string` and a Go `[]byte` are both a Lean `String`; `[]byte(s)` is the
  identity.  Lengths and file offsets count characters.
* A Go `error` is its message text; a nil-able error is `Option String`
  (`none` is `nil`).
* The file named by `args["fileName"]` is the only file the program touches;
  `FileState` is the state of that path.  The system calls on it (`OpenFile`,
  `ReadAll`, `Truncate`, `Seek`, `Write`, `Close`) are modelled on their
  success path; their `if err != nil` branches are kept in the code below but
  never taken.
* `encoding/json` is a library outside the repository.  Its four uses are the
  fields of a `Codec`, over which every general theorem is quantified;
  `goJSON` is one concrete codec, written after the text `json.Marshal` emits.
* A run-time panic is the `Result.panic` outcome.  The delete loop of `remove`
  is modelled on the backing array of the slice, with the current `len(us)`.
* `main` is modelled from its call of `Perform`, on the arguments taken as
  given.
-/

set_option autoImplicit false
set_option maxRecDepth 100000

namespace UserStore

deriving instance DecidableEq for Except

/-! ## Data model -/

/-- Go: `type user struct { Id string; Email string; Age int }`.  The program
does no arithmetic on `Age`; `user.inRange` says that it fits 64 bits. -/
structure user where
  Id : String
  Email : String
  Age : Int
deriving DecidableEq

/-- Go: `type users []user`.  A slice value is either `nil` or a non-nil slice
over some elements; the two differ only in how `json.Marshal` prints them. -/
inductive users where
  | nil
  | slice (elems : List user)
deriving DecidableEq

/-- The elements of a slice value, in order (`nil` has none). -/
def users.elems : users → List user
  | .nil => []
  | .slice l => l

/-- Go: `len(us)`. -/
def users.len (us : users) : Nat := us.elems.length

/-- Go: `append(us, u)`; the result is never `nil`. -/
def users.append (us : users) (u : user) : users := .slice (us.elems ++ [u])

/-- Go: `type Arguments map[string]string`. -/
abbrev Arguments := List (String × String)

/-- Go: `v, ok := args[k]`; a missing key reads as `("", false)`. -/
def Arguments.get (args : Arguments) (k : String) : String × Bool :=
  match args.lookup k with
  | some v => (v, true)
  | none => ("", false)

/-- Go: `args[k]` in a single-value context. -/
def Arguments.val (args : Arguments) (k : String) : String := (args.get k).1

/-- Outcome of a Go call that may panic at run time. -/
inductive Result (α : Type) where
  | ret (a : α)
  | panic (msg : String)
deriving DecidableEq

/-! ## The environment: one file, one writer, the JSON library -/

/-- State of the path `args["fileName"]` in the file system. -/
inductive FileState where
  | absent
  | present (data : String)
deriving DecidableEq

/-- An open `*os.File`: the bytes of the underlying file and the handle's
offset. -/
structure File where
  data : String
  off : Nat
deriving DecidableEq

/-- The file-system state seen through an open handle. -/
def File.state (f : File) : FileState := .present f.data

/-- Go: `os.OpenFile(fileName, os.O_RDWR|os.O_CREATE, 0755)`: an absent file is
created with zero bytes; the handle starts at offset 0. -/
def OpenFile (fs : FileState) : File :=
  match fs with
  | .absent => { data := "", off := 0 }
  | .present d => { data := d, off := 0 }

/-- Go: `ioutil.ReadAll(f)`: the bytes from the offset to the end; the offset
moves to the end. -/
def File.ReadAll (f : File) : String × File :=
  (⟨f.data.data.drop f.off⟩, { f with off := f.data.length })

/-- Zero bytes used to fill a hole. -/
def zeros (n : Nat) : List Char := List.replicate n (Char.ofNat 0)

/-- Go: `f.Truncate(size)`: the file is cut, or extended with zero bytes, to
`size` bytes; the offset does not move. -/
def File.Truncate (f : File) (size : Nat) : File :=
  { f with data := ⟨(f.data.data ++ zeros (size - f.data.length)).take size⟩ }

/-- Go: `f.Seek(offset, 0)`: the offset is set relative to the start. -/
def File.Seek (f : File) (offset : Nat) : File := { f with off := offset }

/-- Go: `f.Write(b)`: `b` overwrites the bytes at the offset (a hole before the
offset is filled with zero bytes); the offset advances by `len(b)`. -/
def File.Write (f : File) (b : String) : File :=
  { data := ⟨(f.data.data ++ zeros (f.off - f.data.length)).take f.off ++ b.data
              ++ f.data.data.drop (f.off + b.length)⟩,
    off := f.off + b.length }

/-- Go: `f.Close()`. -/
def File.Close (_f : File) : Option String := none

/-- An `io.Writer`: the bytes written so far, and the error its `Write`
returns (`none` for a writer that accepts every write). -/
structure Writer where
  buf : String
  fail : Option String
deriving DecidableEq

/-- Go: `_, err = writer.Write(b)`. -/
def Writer.Write (w : Writer) (b : String) : Writer × Option String :=
  match w.fail with
  | none => ({ w with buf := w.buf ++ b }, none)
  | some e => (w, some e)

/-- The uses the program makes of `encoding/json`: `json.Marshal` of a `users`
and of a `user` (neither can return an error: the struct holds two strings and
an int), `json.Unmarshal` into a nil `users` and into a zero `user`. -/
structure Codec where
  marshalUsers : users → String
  marshalUser : user → String
  unmarshalUsers : String → Except String users
  unmarshalUser : String → Except String user

/-! ## A concrete codec

`goJSON` prints a collection the way `json.Marshal` does and reads that text
back.  The reader accepts the texts the printer emits; `json.Unmarshal` accepts
more (white space, other key orders, unknown keys), and the text of its error
messages is not modelled. -/

namespace JSON

/-- The double quote. -/
def dq : Char := Char.ofNat 34

/-- The backslash. -/
def bs : Char := Char.ofNat 92

/-- The closing brace. -/
def rbrace : Char := Char.ofNat 125

/-- Lower-case hexadecimal digit of `n < 16`. -/
def hexDigit (n : Nat) : Char :=
  if n < 10 then Char.ofNat (48 + n) else Char.ofNat (87 + n)

/-- Value of a hexadecimal digit. -/
def hexVal (c : Char) : Option Nat :=
  if 48 ≤ c.toNat ∧ c.toNat ≤ 57 then some (c.toNat - 48)
  else if 97 ≤ c.toNat ∧ c.toNat ≤ 102 then some (c.toNat - 87)
  else if 65 ≤ c.toNat ∧ c.toNat ≤ 70 then some (c.toNat - 55)
  else none

/-- Characters `json.Marshal` writes as a `\u` escape: control characters, the
HTML characters `<`, `>`, `&`, and the line separators U+2028, U+2029. -/
def needsU (c : Char) : Bool :=
  c.toNat < 32 || c.toNat = 60 || c.toNat = 62 || c.toNat = 38
    || c.toNat = 0x2028 || c.toNat = 0x2029

/-- How `json.Marshal` writes one character of a string. -/
def escapeChar (c : Char) : List Char :=
  if c = dq then [bs, dq]
  else if c = bs then [bs, bs]
  else if c.toNat = 10 then [bs, 'n']
  else if c.toNat = 13 then [bs, 'r']
  else if c.toNat = 9 then [bs, 't']
  else if needsU c then
    [bs, 'u', hexDigit (c.toNat / 4096 % 16), hexDigit (c.toNat / 256 % 16),
      hexDigit (c.toNat / 16 % 16), hexDigit (c.toNat % 16)]
  else [c]

/-- The characters of a string, escaped, up to and including the closing
quote. -/
def encChars : List Char → List Char
  | [] => [dq]
  | c :: cs => escapeChar c ++ encChars cs

/-- A string literal as `json.Marshal` writes it. -/
def encString (s : String) : List Char := dq :: encChars s.data

/-- An integer in decimal. -/
def encInt (i : Int) : List Char :=
  match i with
  | .ofNat n => Nat.toDigits 10 n
  | .negSucc n => '-' :: Nat.toDigits 10 (n + 1)

/-- The text before the id of a record. -/
def kId : List Char := "\x7b\"id\":".data

/-- The text between the id and the email of a record. -/
def kEmail : List Char := ",\"email\":".data

/-- The text between the email and the age of a record. -/
def kAge : List Char := ",\"age\":".data

/-- One record: an object with the keys `id`, `email`, `age`, in the order of
the struct's fields. -/
def encUser (u : user) : List Char :=
  kId ++ (encString u.Id ++ (kEmail ++ (encString u.Email ++ (kAge ++ (encInt u.Age ++ [rbrace])))))

/-- The records after the first one, each preceded by a comma, and the closing
bracket. -/
def encTail : List user → List Char
  | [] => [']']
  | u :: l => ',' :: (encUser u ++ encTail l)

/-- A collection: `null` for a nil slice, else an array of records. -/
def encUsers : users → List Char
  | .nil => "null".data
  | .slice [] => "[]".data
  | .slice (u :: l) => '[' :: (encUser u ++ encTail l)

/-- Character named by a one-letter escape. -/
def simpleEscape (e : Char) : Option Char :=
  if e = dq then some dq
  else if e = bs then some bs
  else if e = '/' then some '/'
  else if e = 'b' then some (Char.ofNat 8)
  else if e = 'f' then some (Char.ofNat 12)
  else if e = 'n' then some (Char.ofNat 10)
  else if e = 'r' then some (Char.ofNat 13)
  else if e = 't' then some (Char.ofNat 9)
  else none

/-- Value of four hexadecimal digits. -/
def hex4 (a b c d : Char) : Option Nat :=
  match hexVal a, hexVal b, hexVal c, hexVal d with
  | some a, some b, some c, some d => some (a * 4096 + b * 256 + c * 16 + d)
  | _, _, _, _ => none

/-- Body of a string literal, after the opening quote: the decoded characters
and the input left after the closing quote. -/
def decChars : List Char → Option (List Char × List Char)
  | [] => none
  | c :: cs =>
    if c = dq then some ([], cs)
    else if c = bs then
      match cs with
      | [] => none
      | e :: cs1 =>
        if e = 'u' then
          match cs1 with
          | a :: b :: c :: d :: cs2 =>
            match hex4 a b c d with
            | some n =>
              if 0xD800 ≤ n ∧ n ≤ 0xDFFF then none
              else (decChars cs2).map (fun p => (Char.ofNat n :: p.1, p.2))
            | none => none
          | _ => none
        else
          match simpleEscape e with
          | some ch => (decChars cs1).map (fun p => (ch :: p.1, p.2))
          | none => none
    else if c.toNat < 32 then none
    else (decChars cs).map (fun p => (c :: p.1, p.2))

/-- A string literal and the input left after it. -/
def decString : List Char → Option (String × List Char)
  | [] => none
  | c :: cs => if c = dq then (decChars cs).map (fun p => (⟨p.1⟩, p.2)) else none

/-- Strip an expected prefix. -/
def expect : List Char → List Char → Option (List Char)
  | [], cs => some cs
  | _ :: _, [] => none
  | p :: ps, c :: cs => if p = c then expect ps cs else none

/-- Decimal digits. -/
def isDigit (c : Char) : Bool := 48 ≤ c.toNat && c.toNat ≤ 57

/-- Value of a run of decimal digits, most significant first. -/
def digitsVal (ds : List Char) : Nat := ds.foldl (fun n c => 10 * n + (c.toNat - 48)) 0

/-- A natural number without a leading zero, and the input left after it. -/
def decNat (cs : List Char) : Option (Nat × List Char) :=
  match cs.takeWhile isDigit with
  | [] => none
  | d :: ds =>
    if d = '0' ∧ ds ≠ [] then none
    else some (digitsVal (d :: ds), cs.dropWhile isDigit)

/-- An integer in the range of a 64-bit Go `int`, and the input left after
it. -/
def decInt (cs : List Char) : Option (Int × List Char) :=
  match cs with
  | [] => none
  | c :: cs1 =>
    if c = '-' then
      match decNat cs1 with
      | some (n, r) => if n ≤ 2 ^ 63 then some (-(n : Int), r) else none
      | none => none
    else
      match decNat (c :: cs1) with
      | some (n, r) => if n < 2 ^ 63 then some ((n : Int), r) else none
      | none => none

/-- One record and the input left after it. -/
def decUser (cs : List Char) : Option (user × List Char) :=
  match expect kId cs with
  | none => none
  | some cs =>
  match decString cs with
  | none => none
  | some (id, cs) =>
  match expect kEmail cs with
  | none => none
  | some cs =>
  match decString cs with
  | none => none
  | some (email, cs) =>
  match expect kAge cs with
  | none => none
  | some cs =>
  match decInt cs with
  | none => none
  | some (age, cs) =>
  match cs with
  | [] => none
  | c :: cs => if c = rbrace then some ({ Id := id, Email := email, Age := age }, cs) else none

/-- The records after the first one, up to the closing bracket, which must end
the input.  `fuel` bounds the number of records. -/
def decTail : Nat → List Char → Option (List user)
  | 0, _ => none
  | fuel + 1, cs =>
    match cs with
    | [] => none
    | c :: cs1 =>
      if c = ']' then (if cs1 = [] then some [] else none)
      else if c = ',' then
        match decUser cs1 with
        | none => none
        | some (u, cs2) => (decTail fuel cs2).map (fun l => u :: l)
      else none

/-- A collection: `null`, `[]`, or an array of records. -/
def decUsers (cs : List Char) : Option users :=
  if cs = "null".data then some .nil
  else if cs = "[]".data then some (.slice [])
  else
    match cs with
    | [] => none
    | c :: cs1 =>
      if c = '[' then
        match decUser cs1 with
        | none => none
        | some (u, cs2) => (decTail cs2.length cs2).map (fun l => .slice (u :: l))
      else none

/-- What the reader needs of a printed number `n`: it is not empty, made of
digits, has the value `n`, and starts with `0` only when it is `0` alone. -/
def Printed (ds : List Char) (n : Nat) : Prop :=
  ds ≠ [] ∧ (∀ c ∈ ds, isDigit c = true) ∧ digitsVal ds = n ∧
    (∀ d tl, ds = d :: tl → d = '0' → tl = [])

end JSON

/-- Model of `encoding/json` on the types of this program. -/
def goJSON : Codec where
  marshalUsers us := ⟨JSON.encUsers us⟩
  marshalUser u := ⟨JSON.encUser u⟩
  unmarshalUsers data :=
    match JSON.decUsers data.data with
    | some us => .ok us
    | none => .error "invalid JSON"
  unmarshalUser data :=
    match JSON.decUser data.data with
    | some (u, []) => .ok u
    | _ => .error "invalid JSON"

/-! ## The program -/

/-- Go: `operationError`. -/
def operationError : String := "-operation flag has to be specified"
/-- Go: `filenameError`. -/
def filenameError : String := "-fileName flag has to be specified"
/-- Go: `itemError`. -/
def itemError : String := "-item flag has to be specified"
/-- Go: `idError`. -/
def idError : String := "-id flag has to be specified"

/-- Go: `readAll(fileName)`.  Returns the decoded collection or the error, and
the open handle (through which the state of the file is read off; on the error
path Go returns a nil handle, the file stays as it is). -/
def readAll (J : Codec) (fs : FileState) : Except String users × File :=
  let f := OpenFile fs
  let (data, f) := f.ReadAll
  if data.length > 0 then
    match J.unmarshalUsers data with
    | .error e => (.error e, f)
    | .ok us => (.ok us, f)
  else (.ok users.nil, f)

/-- Go: `writeToFile(us, f)`. -/
def writeToFile (J : Codec) (us : users) (f : File) : Option String × File :=
  let b := J.marshalUsers us
  let f := f.Truncate 0
  let f := f.Seek 0
  let f := f.Write b
  (none, f)

/-- Go: `list(args, writer)`. -/
def list (J : Codec) (_args : Arguments) (writer : Writer) (fs : FileState) :
    Option String × Writer × FileState :=
  match readAll J fs with
  | (.error e, f) => (some e, writer, f.state)
  | (.ok us, f) =>
    let b := J.marshalUsers us
    let b := if us.len ≤ 0 then "" else b
    match writer.Write b with
    | (writer, some e) => (some e, writer, f.state)
    | (writer, none) => (none, writer, f.state)

/-- Go: `add(args)`. -/
def add (J : Codec) (args : Arguments) (fs : FileState) : Option String × FileState :=
  match readAll J fs with
  | (.error e, f) => (some e, f.state)
  | (.ok us, f) =>
    match J.unmarshalUser (args.val "item") with
    | .error e => (some e, f.state)
    | .ok u =>
      match us.elems.find? (fun u2 => u2.Id = u.Id) with
      | some u2 => (some ("Item with id " ++ u2.Id ++ " already exists"), f.state)
      | none =>
        let us := us.append u
        match writeToFile J us f with
        | (some e, f) => (some e, f.state)
        | (none, f) =>
          match f.Close with
          | some e => (some e, f.state)
          | none => (none, f.state)

/-- State of the delete loop of `remove`: the cells of the backing array that
the loop ranges over, the current length of `us`, and `found`. -/
structure LoopState where
  arr : List user
  len : Nat
  found : Bool
deriving DecidableEq

/-- Go: the text of the run-time error of a slice expression `s[low:]` with
`low > len(s)`. -/
def sliceBoundsPanic (low len : Nat) : String :=
  "runtime error: slice bounds out of range [" ++ toString low ++ ":" ++ toString len ++ "]"

/-- Go: the body of `for k, u := range us` in `remove`.  `u` is read from the
backing array at `k`.  On a match, `us[:k]` is in range (`k` is below the
capacity), `us[k+1:]` needs `k+1 ≤ len(us)`, and `append` shifts the cells
`k+1 .. len-1` down by one in place, so `len(us)` drops by one and the cell
`len-1` keeps its old content. -/
def removeBody (id : String) (k : Nat) (s : LoopState) : Result LoopState :=
  match s.arr[k]? with
  | none => .ret s
  | some u =>
    if u.Id = id then
      if k + 1 ≤ s.len then
        .ret { arr := s.arr.take k ++ (s.arr.drop (k + 1)).take (s.len - (k + 1))
                        ++ s.arr.drop (s.len - 1),
               len := s.len - 1,
               found := true }
      else .panic (sliceBoundsPanic (k + 1) s.len)
    else .ret s

/-- Go: the `range` loop of `remove`, `m` iterations starting at index `k`.
The range expression is evaluated once, so the loop runs over the original
length whatever happens to `us`. -/
def removeLoop (id : String) : Nat → Nat → LoopState → Result LoopState
  | 0, _, s => .ret s
  | m + 1, k, s =>
    match removeBody id k s with
    | .panic e => .panic e
    | .ret s => removeLoop id m (k + 1) s

/-- Go: `remove(args)`. -/
def remove (J : Codec) (args : Arguments) (fs : FileState) :
    Result (Option String × FileState) :=
  match readAll J fs with
  | (.error e, f) => .ret (some e, f.state)
  | (.ok us, f) =>
    match removeLoop (args.val "id") us.len 0
        { arr := us.elems, len := us.len, found := false } with
    | .panic e => .panic e
    | .ret s =>
      if !s.found then
        .ret (some ("Item with id " ++ args.val "id" ++ " not found"), f.state)
      else
        let us := users.slice (s.arr.take s.len)
        match writeToFile J us f with
        | (some e, f) => .ret (some e, f.state)
        | (none, f) =>
          match f.Close with
          | some e => .ret (some e, f.state)
          | none => .ret (none, f.state)

/-- Go: `findById(args, writer)`. -/
def findById (J : Codec) (args : Arguments) (writer : Writer) (fs : FileState) :
    Option String × Writer × FileState :=
  match readAll J fs with
  | (.error e, f) => (some e, writer, f.state)
  | (.ok us, f) =>
    match us.elems.find? (fun u => u.Id = args.val "id") with
    | none => (some ("Item with id " ++ args.val "id" ++ " not found"), writer, f.state)
    | some u =>
      let b := J.marshalUser u
      match writer.Write b with
      | (writer, some e) => (some e, writer, f.state)
      | (writer, none) => (none, writer, f.state)

/-- Go: the tail of `Perform`: `if err != nil { _, err = writer.Write([]byte(err.Error())) }; return`. -/
def performTail (err : Option String) (writer : Writer) : Option String × Writer :=
  match err with
  | some e =>
    match writer.Write e with
    | (writer, err) => (err, writer)
  | none => (none, writer)

/-- Go: `v, ok := args[k]; v == "" || !ok`. -/
def Arguments.missing (args : Arguments) (k : String) : Bool :=
  (args.get k).1 = "" || !(args.get k).2

/-- Go: `Perform(args, writer)`: the returned error, the writer and the file
afterwards. -/
def Perform (J : Codec) (args : Arguments) (writer : Writer) (fs : FileState) :
    Result (Option String × Writer × FileState) :=
  if args.missing "operation" then .ret (some operationError, writer, fs)
  else if args.missing "fileName" then .ret (some filenameError, writer, fs)
  else if args.val "operation" = "list" then
    match list J args writer fs with
    | (err, writer, fs) =>
      match performTail err writer with
      | (err, writer) => .ret (err, writer, fs)
  else if args.val "operation" = "add" then
    if args.missing "item" then .ret (some itemError, writer, fs)
    else
      match add J args fs with
      | (err, fs) =>
        match performTail err writer with
        | (err, writer) => .ret (err, writer, fs)
  else if args.val "operation" = "remove" then
    if args.missing "id" then .ret (some idError, writer, fs)
    else
      match remove J args fs with
      | .panic e => .panic e
      | .ret (err, fs) =>
        match performTail err writer with
        | (err, writer) => .ret (err, writer, fs)
  else if args.val "operation" = "findById" then
    if args.missing "id" then .ret (some idError, writer, fs)
    else
      match findById J args writer fs with
      | (err, writer, fs) =>
        match performTail err writer with
        | (err, writer) => .ret (err, writer, fs)
  else .ret (some ("Operation " ++ args.val "operation" ++ " not allowed!"), writer, fs)

/-- Go: the body of `main` once `parseArgs()` has produced `args`:
`err := Perform(args, os.Stdout); if err != nil { panic(err) }`. -/
def mainWith (J : Codec) (args : Arguments) (stdout : Writer) (fs : FileState) :
    Result (Writer × FileState) :=
  match Perform J args stdout fs with
  | .panic e => .panic e
  | .ret (some e, _, _) => .panic e
  | .ret (none, writer, fs) => .ret (writer, fs)

/-! ## Specification-side notions -/

/-- The bytes a file state holds; an absent file holds none. -/
def FileState.bytes : FileState → String
  | .absent => ""
  | .present data => data

/-- The collection a file state stands for: the empty collection for an absent
or zero-byte file, else what the stored text decodes to. -/
def stored (J : Codec) (fs : FileState) : Except String users :=
  if fs.bytes = "" then .ok .nil else J.unmarshalUsers fs.bytes

/-- The failure `Perform` finds before it runs an operation: a required flag is
missing (`-operation`, `-fileName`, `-item` for `add`, `-id` for `remove` and
`findById`) or the operation is not one of the four. -/
def flagFailure (args : Arguments) : Option String :=
  if args.missing "operation" then some operationError
  else if args.missing "fileName" then some filenameError
  else if args.val "operation" = "list" then none
  else if args.val "operation" = "add" then
    (if args.missing "item" then some itemError else none)
  else if args.val "operation" = "remove" ∨ args.val "operation" = "findById" then
    (if args.missing "id" then some idError else none)
  else some ("Operation " ++ args.val "operation" ++ " not allowed!")

/-- The age of a record fits a 64-bit Go `int`. -/
def user.inRange (u : user) : Prop := -(2 : Int) ^ 63 ≤ u.Age ∧ u.Age < (2 : Int) ^ 63

/-- The text printed for `us` is not empty and reads back as `us`: what the
program needs of `encoding/json` to find again what it wrote. -/
def Codec.RoundTrips (J : Codec) (us : users) : Prop :=
  J.marshalUsers us ≠ "" ∧ J.unmarshalUsers (J.marshalUsers us) = .ok us

instance (J : Codec) (us : users) : Decidable (J.RoundTrips us) :=
  inferInstanceAs (Decidable (_ ∧ _))

/-! ## Sample data -/

/-- A record. -/
def alice : user := { Id := "1", Email := "a@b.com", Age := 30 }

/-- A second record with the id of `alice`. -/
def alice2 : user := { Id := "1", Email := "x@y.org", Age := 41 }

/-- A record with another id. -/
def bob : user := { Id := "2", Email := "bob@c.de", Age := 25 }

/-- A file holding `alice`. -/
def fileAlice : String := "[\x7b\"id\":\"1\",\"email\":\"a@b.com\",\"age\":30\x7d]"

/-- A file holding `alice` and `bob`. -/
def fileAliceBob : String :=
  "[\x7b\"id\":\"1\",\"email\":\"a@b.com\",\"age\":30\x7d,\x7b\"id\":\"2\",\"email\":\"bob@c.de\",\"age\":25\x7d]"

/-- A file holding `bob`. -/
def fileBob : String := "[\x7b\"id\":\"2\",\"email\":\"bob@c.de\",\"age\":25\x7d]"

/-- A file holding `alice` and `alice2`, two records with the id `1`. -/
def fileAliceAlice2 : String :=
  "[\x7b\"id\":\"1\",\"email\":\"a@b.com\",\"age\":30\x7d,\x7b\"id\":\"1\",\"email\":\"x@y.org\",\"age\":41\x7d]"

/-- A file holding `alice`, `alice2` and `bob`. -/
def fileAliceAlice2Bob : String :=
  "[\x7b\"id\":\"1\",\"email\":\"a@b.com\",\"age\":30\x7d,\x7b\"id\":\"1\",\"email\":\"x@y.org\",\"age\":41\x7d,\x7b\"id\":\"2\",\"email\":\"bob@c.de\",\"age\":25\x7d]"

/-- A file holding `alice2` and `bob`. -/
def fileAlice2Bob : String :=
  "[\x7b\"id\":\"1\",\"email\":\"x@y.org\",\"age\":41\x7d,\x7b\"id\":\"2\",\"email\":\"bob@c.de\",\"age\":25\x7d]"

/-- The `-item` text of `alice`. -/
def itemAlice : String := "\x7b\"id\":\"1\",\"email\":\"a@b.com\",\"age\":30\x7d"

/-- The `-item` text of `alice2`. -/
def itemAlice2 : String := "\x7b\"id\":\"1\",\"email\":\"x@y.org\",\"age\":41\x7d"

/-- The `-item` text of `bob`. -/
def itemBob : String := "\x7b\"id\":\"2\",\"email\":\"bob@c.de\",\"age\":25\x7d"

/-- The flags of an `add` of `alice2`. -/
def argsAddAlice2 : Arguments :=
  [("operation", "add"), ("fileName", "users.json"), ("item", itemAlice2)]

/-- A writer that has received nothing yet and accepts every write. -/
def stdout0 : Writer := { buf := "", fail := none }

/-! ## The read and write steps -/

theorem string_length_pos_iff (s : String) : s.length > 0 ↔ s ≠ "" := by
  cases s with
  | mk l =>
    cases l with
    | nil => simp [String.length]
    | cons c cs =>
      simp [String.length]
      intro h
      exact absurd (congrArg String.data h) (by simp)

/-- The file a handle stands on after an open. -/
theorem OpenFile_data (fs : FileState) : OpenFile fs = { data := fs.bytes, off := 0 } := by
  cases fs <;> rfl

/-- The read step decodes what the file holds, creates an absent file, leaves
the bytes as they are and ends with the offset at the end of the file. -/
theorem readAll_eq (J : Codec) (fs : FileState) :
    readAll J fs = (stored J fs, { data := fs.bytes, off := fs.bytes.length }) := by
  unfold readAll stored
  rw [OpenFile_data]
  simp only [File.ReadAll, List.drop_zero]
  by_cases h : fs.bytes = ""
  · simp [h]
  · have hl : fs.bytes.length > 0 := (string_length_pos_iff _).2 h
    simp only [hl, h, if_true, if_false]
    cases J.unmarshalUsers fs.bytes <;> rfl

/-- The write step leaves exactly the new encoding in the file, whatever the
file held and wherever the offset was. -/
theorem writeToFile_eq (J : Codec) (us : users) (f : File) :
    writeToFile J us f
      = (none, { data := J.marshalUsers us, off := (J.marshalUsers us).length }) := by
  simp [writeToFile, File.Truncate, File.Seek, File.Write, zeros]

/-! ## The delete loop of `remove` -/

/-- An iteration that reads a cell with another id changes nothing. -/
theorem removeBody_skip (id : String) (k : Nat) (s : LoopState)
    (h : ∀ u, s.arr[k]? = some u → u.Id ≠ id) : removeBody id k s = .ret s := by
  unfold removeBody
  cases hk : s.arr[k]? with
  | none => rfl
  | some u => simp [h u hk]

/-- Iterations that read only cells with other ids change nothing. -/
theorem removeLoop_skip (id : String) (m : Nat) :
    ∀ (k : Nat) (s : LoopState),
      (∀ j u, k ≤ j → j < k + m → s.arr[j]? = some u → u.Id ≠ id) →
      removeLoop id m k s = .ret s := by
  induction m with
  | zero => intro k s _; rfl
  | succ m ih =>
    intro k s h
    have h0 : removeBody id k s = .ret s :=
      removeBody_skip id k s (fun u hu => h k u (Nat.le_refl k) (by omega) hu)
    simp only [removeLoop, h0]
    exact ih (k + 1) s (fun j u hj1 hj2 hu => h j u (by omega) (by omega) hu)

/-- The loop over `a + b` iterations is the loop over `a` iterations followed
by the loop over `b` iterations. -/
theorem removeLoop_add (id : String) (a b : Nat) :
    ∀ (k : Nat) (s : LoopState),
      removeLoop id (a + b) k s =
        match removeLoop id a k s with
        | .panic e => .panic e
        | .ret s1 => removeLoop id b (k + a) s1 := by
  induction a with
  | zero => intro k s; simp [removeLoop]
  | succ a ih =>
    intro k s
    have e : a + 1 + b = (a + b) + 1 := by omega
    rw [e]
    simp only [removeLoop]
    cases removeBody id k s with
    | panic e => rfl
    | ret s1 =>
      simp only []
      rw [ih (k + 1) s1]
      have e2 : k + 1 + a = k + (a + 1) := by omega
      rw [e2]

/-- A cell at or after position `k` is a member of the list cut at `k`. -/
theorem mem_drop_of_getElem? (l : List user) (k j : Nat) (u : user)
    (hkj : k ≤ j) (h : l[j]? = some u) : u ∈ l.drop k := by
  have e : (l.drop k)[j - k]? = some u := by
    rw [List.getElem?_drop]
    have : k + (j - k) = j := by omega
    rw [this]; exact h
  exact List.getElem?_mem e

/-- The loop on a collection in which exactly one record, at position
`pre.length`, carries the id: the loop does not panic, shortens the slice by
one and leaves the other records, in order, in its first cells. -/
theorem removeLoop_single (id : String) (pre post : List user) (r : user)
    (hr : r.Id = id) (hpre : ∀ u ∈ pre, u.Id ≠ id) (hpost : ∀ u ∈ post, u.Id ≠ id) :
    ∃ s, removeLoop id (pre ++ r :: post).length 0
          { arr := pre ++ r :: post, len := (pre ++ r :: post).length, found := false }
          = .ret s ∧ s.found = true ∧ s.arr.take s.len = pre ++ post := by
  have hlen : (pre ++ r :: post).length = pre.length + (post.length + 1) := by simp
  -- the iterations before the match
  have h1 : removeLoop id pre.length 0
      { arr := pre ++ r :: post, len := (pre ++ r :: post).length, found := false }
      = .ret { arr := pre ++ r :: post, len := (pre ++ r :: post).length, found := false } := by
    apply removeLoop_skip
    intro j u _ hj hu
    simp only [Nat.zero_add] at hj
    rw [List.getElem?_append_left hj] at hu
    exact hpre u (List.getElem?_mem hu)
  -- the iteration at the match
  have h2 : removeBody id pre.length
      { arr := pre ++ r :: post, len := (pre ++ r :: post).length, found := false }
      = .ret { arr := pre ++ post ++ (r :: post).drop post.length,
               len := pre.length + post.length, found := true } := by
    have hget : (pre ++ r :: post)[pre.length]? = some r := by
      rw [List.getElem?_append_right (Nat.le_refl _)]; simp
    have hle : pre.length + 1 ≤ (pre ++ r :: post).length := by rw [hlen]; omega
    simp only [removeBody, hget, hr, if_true, hle]
    congr 1
    have e1 : List.take pre.length (pre ++ r :: post) = pre := by simp
    have e2 : List.drop (pre.length + 1) (pre ++ r :: post) = post := by
      rw [List.drop_append_eq_append_drop]
      simp
    have e3 : (pre ++ r :: post).length - (pre.length + 1) = post.length := by rw [hlen]; omega
    have e4 : (pre ++ r :: post).length - 1 = pre.length + post.length := by rw [hlen]; omega
    have e5 : List.drop (pre.length + post.length) (pre ++ r :: post)
        = List.drop post.length (r :: post) := by
      rw [List.drop_append_eq_append_drop]
      simp
    rw [e1, e2, e3, e4, e5]
    simp
  -- the iterations after the match
  have h3 : removeLoop id post.length (pre.length + 1)
      { arr := pre ++ post ++ (r :: post).drop post.length,
        len := pre.length + post.length, found := true }
      = .ret { arr := pre ++ post ++ (r :: post).drop post.length,
               len := pre.length + post.length, found := true } := by
    apply removeLoop_skip
    intro j u hj1 hj2 hu
    have hm := mem_drop_of_getElem? _ (pre.length + 1) j u hj1 hu
    cases post with
    | nil => simp at hj2; omega
    | cons p ps =>
      have e : List.drop (pre.length + 1) (pre ++ (p :: ps) ++ List.drop (p :: ps).length (r :: p :: ps))
          = ps ++ List.drop ps.length (p :: ps) := by
        rw [List.append_assoc, List.drop_append_eq_append_drop]
        simp
      rw [e] at hm
      rcases List.mem_append.1 hm with h | h
      · exact hpost u (List.mem_cons_of_mem _ h)
      · exact hpost u (List.mem_of_mem_drop h)
  refine ⟨{ arr := pre ++ post ++ (r :: post).drop post.length,
            len := pre.length + post.length, found := true }, ?_, rfl, ?_⟩
  · rw [hlen, removeLoop_add, ← hlen, h1]
    simp only [Nat.zero_add]
    have e : post.length + 1 = 1 + post.length := by omega
    rw [e, removeLoop_add]
    simp only [removeLoop, h2, h3]
  · simp [List.take_append_eq_append_take]

/-! ## Facts shared by the operations -/

/-- A file that stands for a collection with a record is present. -/
theorem present_of_stored_ne_nil (J : Codec) (fs : FileState) (us : users)
    (hst : stored J fs = .ok us) (hne : us.elems ≠ []) : FileState.present fs.bytes = fs := by
  cases fs with
  | present d => rfl
  | absent =>
    simp [stored, FileState.bytes] at hst
    subst hst
    exact absurd rfl hne

/-- The scan for an id finds nothing in a collection without that id. -/
theorem find?_none_of_ne (l : List user) (id : String) (h : ∀ u ∈ l, u.Id ≠ id) :
    l.find? (fun u => u.Id = id) = none := by
  rw [List.find?_eq_none]
  intro u hu
  simpa using h u hu

/-- The scan for an id stops at the first record that carries it. -/
theorem find?_append_single (pre : List user) (r : user) (post : List user) (id : String)
    (hpre : ∀ u ∈ pre, u.Id ≠ id) (hr : r.Id = id) :
    (pre ++ r :: post).find? (fun u => u.Id = id) = some r := by
  induction pre with
  | nil => simp [hr]
  | cons p ps ih =>
    have hp : p.Id ≠ id := hpre p (List.mem_cons_self _ _)
    simp only [List.cons_append, List.find?_cons, hp, decide_False]
    exact ih (fun u hu => hpre u (List.mem_cons_of_mem _ hu))

/-- A file that holds the text printed for a collection stands for that
collection, when the text reads back. -/
theorem stored_marshal (J : Codec) (us : users) (h : J.RoundTrips us) :
    stored J (.present (J.marshalUsers us)) = .ok us := by
  simp [stored, FileState.bytes, h.1, h.2]

/-- Deleting the one record that carries an id is filtering on the id. -/
theorem filter_single (pre post : List user) (r : user) (id : String)
    (hr : r.Id = id) (hpre : ∀ u ∈ pre, u.Id ≠ id) (hpost : ∀ u ∈ post, u.Id ≠ id) :
    (pre ++ r :: post).filter (fun u => u.Id ≠ id) = pre ++ post := by
  have e1 : pre.filter (fun u => u.Id ≠ id) = pre :=
    List.filter_eq_self.2 (fun u hu => by simpa using hpre u hu)
  have e2 : post.filter (fun u => u.Id ≠ id) = post :=
    List.filter_eq_self.2 (fun u hu => by simpa using hpost u hu)
  simp only [decide_not] at e1 e2
  simp [List.filter_append, List.filter_cons, hr, e1, e2]

/-- The outcome of `remove` on a collection in which exactly one record carries
the id. -/
theorem remove_single (J : Codec) (args : Arguments) (fs : FileState)
    (pre post : List user) (r : user) (us : users)
    (hst : stored J fs = .ok us) (hus : us.elems = pre ++ r :: post)
    (hr : r.Id = args.val "id")
    (hpre : ∀ u ∈ pre, u.Id ≠ args.val "id") (hpost : ∀ u ∈ post, u.Id ≠ args.val "id") :
    remove J args fs = .ret (none, .present (J.marshalUsers (.slice (pre ++ post)))) := by
  obtain ⟨s, hs, hf, ht⟩ := removeLoop_single (args.val "id") pre post r hr hpre hpost
  unfold remove
  rw [readAll_eq, hst]
  simp only [users.len, hus, hs, hf, ht, writeToFile_eq, File.Close, File.state]
  rfl

/-! ## The concrete codec reads back what it prints -/

namespace JSON

theorem hexVal_hexDigit (d : Nat) (h : d < 16) : hexVal (hexDigit d) = some d := by
  interval_cases d <;> decide

theorem hex4_digits (n : Nat) (h : n < 65536) :
    hex4 (hexDigit (n / 4096 % 16)) (hexDigit (n / 256 % 16)) (hexDigit (n / 16 % 16))
      (hexDigit (n % 16)) = some n := by
  unfold hex4
  rw [hexVal_hexDigit _ (Nat.mod_lt _ (by decide)), hexVal_hexDigit _ (Nat.mod_lt _ (by decide)),
    hexVal_hexDigit _ (Nat.mod_lt _ (by decide)), hexVal_hexDigit _ (Nat.mod_lt _ (by decide))]
  simp only [Option.some.injEq]
  omega

theorem char_eq_of_toNat (c : Char) (n : Nat) (h : c.toNat = n) : c = Char.ofNat n := by
  rw [← h, Char.ofNat_toNat]

/-- Reading a one-letter escape. -/
theorem decChars_simple (e ch : Char) (tail : List Char) (hu : e ≠ 'u')
    (hs : simpleEscape e = some ch) :
    decChars (bs :: e :: tail) = (decChars tail).map (fun p => (ch :: p.1, p.2)) := by
  have h1 : bs ≠ dq := by decide
  rw [decChars.eq_def]
  simp only [h1, hu, hs, if_true, if_false]

/-- Reading a `\u` escape. -/
theorem decChars_u (n : Nat) (tail : List Char) (h : n < 65536)
    (hs : ¬ (0xD800 ≤ n ∧ n ≤ 0xDFFF)) :
    decChars (bs :: 'u' :: hexDigit (n / 4096 % 16) :: hexDigit (n / 256 % 16)
        :: hexDigit (n / 16 % 16) :: hexDigit (n % 16) :: tail)
      = (decChars tail).map (fun p => (Char.ofNat n :: p.1, p.2)) := by
  have h1 : bs ≠ dq := by decide
  rw [decChars.eq_def]
  simp only [h1, hex4_digits n h, hs, if_true, if_false]

/-- Reading a character printed as itself. -/
theorem decChars_plain (c : Char) (tail : List Char) (h1 : c ≠ dq) (h2 : c ≠ bs)
    (h3 : ¬ c.toNat < 32) :
    decChars (c :: tail) = (decChars tail).map (fun p => (c :: p.1, p.2)) := by
  rw [decChars.eq_def]
  simp only [h1, h2, h3, if_false]

/-- Reading one printed character gives the character back. -/
theorem decChars_escapeChar (c : Char) (tail : List Char) :
    decChars (escapeChar c ++ tail) = (decChars tail).map (fun p => (c :: p.1, p.2)) := by
  unfold escapeChar
  by_cases h1 : c = dq
  · subst h1
    simp only [if_true, List.cons_append, List.nil_append]
    exact decChars_simple dq dq tail (by decide) (by decide)
  by_cases h2 : c = bs
  · subst h2
    simp only [h1, if_true, if_false, List.cons_append, List.nil_append]
    exact decChars_simple bs bs tail (by decide) (by decide)
  by_cases h3 : c.toNat = 10
  · have hc := char_eq_of_toNat c 10 h3
    simp only [h1, h2, h3, if_true, if_false, List.cons_append, List.nil_append]
    rw [hc]
    exact decChars_simple 'n' _ tail (by decide) (by decide)
  by_cases h4 : c.toNat = 13
  · have hc := char_eq_of_toNat c 13 h4
    simp only [h1, h2, h3, h4, if_true, if_false, List.cons_append, List.nil_append]
    rw [hc]
    exact decChars_simple 'r' _ tail (by decide) (by decide)
  by_cases h5 : c.toNat = 9
  · have hc := char_eq_of_toNat c 9 h5
    simp only [h1, h2, h3, h4, h5, if_true, if_false, List.cons_append, List.nil_append]
    rw [hc]
    exact decChars_simple 't' _ tail (by decide) (by decide)
  by_cases h6 : needsU c = true
  · simp only [h1, h2, h3, h4, h5, h6, if_true, if_false, List.cons_append, List.nil_append]
    have hlt : c.toNat < 65536 ∧ ¬ (0xD800 ≤ c.toNat ∧ c.toNat ≤ 0xDFFF) := by
      simp only [needsU, Bool.or_eq_true, decide_eq_true_eq] at h6
      omega
    rw [decChars_u c.toNat tail hlt.1 hlt.2, Char.ofNat_toNat]
  · simp only [h1, h2, h3, h4, h5, h6, if_false, List.cons_append, List.nil_append]
    have h7 : ¬ c.toNat < 32 := by
      intro h
      apply h6
      simp [needsU, h]
    exact decChars_plain c tail h1 h2 h7

/-- Reading the printed characters of a string gives them back, with the
input after the closing quote. -/
theorem decChars_encChars (s rest : List Char) :
    decChars (encChars s ++ rest) = some (s, rest) := by
  induction s with
  | nil =>
    simp only [encChars, List.cons_append, List.nil_append]
    rw [decChars.eq_def]
    simp
  | cons c cs ih =>
    simp only [encChars, List.append_assoc]
    rw [decChars_escapeChar, ih]
    rfl

/-- Reading a printed string literal gives the string back. -/
theorem decString_encString (s : String) (rest : List Char) :
    decString (encString s ++ rest) = some (s, rest) := by
  simp [encString, decString, decChars_encChars]

/-- An expected prefix is stripped. -/
theorem expect_append (p rest : List Char) : expect p (p ++ rest) = some rest := by
  induction p with
  | nil => cases rest <;> rfl
  | cons c cs ih => simp [expect, ih]

/-- A decimal digit character is a digit with the value it stands for, and it
is `0` only for the value zero. -/
theorem digitChar_spec (d : Nat) (h : d < 10) :
    isDigit (Nat.digitChar d) = true ∧ (Nat.digitChar d).toNat - 48 = d ∧
      (Nat.digitChar d = '0' → d = 0) := by
  interval_cases d <;> decide

/-- The digits already printed stay behind the ones still to print. -/
theorem toDigitsCore_acc (fuel : Nat) :
    ∀ (n : Nat) (ds : List Char),
      Nat.toDigitsCore 10 fuel n ds = Nat.toDigitsCore 10 fuel n [] ++ ds := by
  induction fuel with
  | zero => intro n ds; simp [Nat.toDigitsCore]
  | succ fuel ih =>
    intro n ds
    simp only [Nat.toDigitsCore]
    by_cases h : n / 10 = 0
    · simp [h]
    · simp only [h, if_false]
      rw [ih (n / 10) (Nat.digitChar (n % 10) :: ds), ih (n / 10) [Nat.digitChar (n % 10)]]
      simp

/-- The value of a run of digits followed by one more digit. -/
theorem digitsVal_snoc (ds : List Char) (d : Char) :
    digitsVal (ds ++ [d]) = 10 * digitsVal ds + (d.toNat - 48) := by
  simp [digitsVal, List.foldl_append]

theorem toDigitsCore_printed (fuel : Nat) :
    ∀ n : Nat, n < fuel → Printed (Nat.toDigitsCore 10 fuel n []) n := by
  induction fuel with
  | zero => intro n h; omega
  | succ fuel ih =>
    intro n hn
    have hd := digitChar_spec (n % 10) (Nat.mod_lt _ (by decide))
    simp only [Nat.toDigitsCore]
    by_cases h : n / 10 = 0
    · simp only [h, if_true]
      have hn10 : n % 10 = n := by omega
      refine ⟨by simp, ?_, ?_, ?_⟩
      · intro c hc
        simp only [List.mem_singleton] at hc
        rw [hc]; exact hd.1
      · simp only [digitsVal, List.foldl_cons, List.foldl_nil]
        omega
      · intro d tl e _
        simp only [List.cons.injEq] at e
        exact e.2.symm
    · simp only [h, if_false]
      rw [toDigitsCore_acc]
      have hlt : n / 10 < fuel := by omega
      obtain ⟨p1, p2, p3, p4⟩ := ih (n / 10) hlt
      refine ⟨by simp, ?_, ?_, ?_⟩
      · intro c hc
        rcases List.mem_append.1 hc with hc | hc
        · exact p2 c hc
        · simp only [List.mem_singleton] at hc
          rw [hc]; exact hd.1
      · rw [digitsVal_snoc, p3]
        omega
      · intro d tl e hd0
        cases hx : Nat.toDigitsCore 10 fuel (n / 10) [] with
        | nil => exact absurd hx p1
        | cons x xs =>
          rw [hx] at e p3
          simp only [List.cons_append, List.cons.injEq] at e
          have hx0 : x = '0' := by rw [e.1]; exact hd0
          have hxs : xs = [] := p4 x xs hx hx0
          rw [hxs, hx0] at p3
          simp [digitsVal] at p3
          omega

/-- The decimal form of a number is a printed number. -/
theorem toDigits_printed (n : Nat) : Printed (Nat.toDigits 10 n) n :=
  toDigitsCore_printed (n + 1) n (Nat.lt_succ_self n)

/-- Reading a printed number that is followed by a closing brace. -/
theorem decNat_printed (ds : List Char) (n : Nat) (tail : List Char) (h : Printed ds n) :
    decNat (ds ++ rbrace :: tail) = some (n, rbrace :: tail) := by
  obtain ⟨p1, p2, p3, p4⟩ := h
  have hr : isDigit rbrace = false := by decide
  have ht : List.takeWhile isDigit (ds ++ rbrace :: tail) = ds := by
    rw [List.takeWhile_append_of_pos p2]
    simp [List.takeWhile_cons, hr]
  have hdr : List.dropWhile isDigit (ds ++ rbrace :: tail) = rbrace :: tail := by
    rw [List.dropWhile_append_of_pos p2]
    simp [List.dropWhile_cons, hr]
  unfold decNat
  rw [ht, hdr]
  cases ds with
  | nil => exact absurd rfl p1
  | cons d tl =>
    simp only
    by_cases h0 : d = '0'
    · have := p4 d tl rfl h0
      simp [this, p3.symm]
    · simp [h0, p3]

/-- Reading a printed integer of the 64-bit range that is followed by a
closing brace. -/
theorem decInt_encInt (i : Int) (tail : List Char)
    (hlo : -(2 : Int) ^ 63 ≤ i) (hhi : i < (2 : Int) ^ 63) :
    decInt (encInt i ++ rbrace :: tail) = some (i, rbrace :: tail) := by
  cases i with
  | ofNat n =>
    have hp := toDigits_printed n
    have hdec := decNat_printed _ n tail hp
    have hn : n < 2 ^ 63 := by
      have : (n : Int) < 2 ^ 63 := hhi
      exact_mod_cast this
    simp only [encInt]
    cases hx : Nat.toDigits 10 n with
    | nil => exact absurd hx hp.1
    | cons d tl =>
      rw [hx] at hdec
      have hdd : isDigit d = true := hp.2.1 d (by rw [hx]; exact List.mem_cons_self _ _)
      have hminus : d ≠ '-' := by
        intro e
        rw [e] at hdd
        exact absurd hdd (by decide)
      simp only [List.cons_append] at hdec ⊢
      simp only [decInt, hminus, if_false, hdec, hn, if_true]
      rfl
  | negSucc n =>
    have hp := toDigits_printed (n + 1)
    have hdec := decNat_printed _ (n + 1) tail hp
    have hn : n + 1 ≤ 2 ^ 63 := by
      have h1 : -(2 : Int) ^ 63 ≤ Int.negSucc n := hlo
      rw [Int.negSucc_eq] at h1
      have h2 : ((n : Int) + 1) ≤ 2 ^ 63 := by omega
      exact_mod_cast h2
    simp only [encInt, List.cons_append]
    simp only [decInt, if_true, hdec, hn]
    rw [Int.negSucc_eq]
    simp

/-- Reading a printed record gives the record back, with the input after
it. -/
theorem decUser_encUser (u : user) (rest : List Char) (h : u.inRange) :
    decUser (encUser u ++ rest) = some (u, rest) := by
  have e : encUser u ++ rest
      = kId ++ (encString u.Id ++ (kEmail ++ (encString u.Email
          ++ (kAge ++ (encInt u.Age ++ rbrace :: rest))))) := by
    simp [encUser, List.append_assoc]
  rw [e]
  unfold decUser
  simp only [expect_append, decString_encString, decInt_encInt u.Age rest h.1 h.2, if_true]

/-- Reading the printed records after the first one gives them back. -/
theorem decTail_encTail (l : List user) :
    ∀ fuel : Nat, l.length < fuel → (∀ u ∈ l, u.inRange) →
      decTail fuel (encTail l) = some l := by
  induction l with
  | nil =>
    intro fuel hf _
    cases fuel with
    | zero => omega
    | succ fuel => simp [encTail, decTail]
  | cons u l ih =>
    intro fuel hf hr
    cases fuel with
    | zero => omega
    | succ fuel =>
      have h1 : (',' : Char) ≠ ']' := by decide
      have hu := decUser_encUser u (encTail l) (hr u (List.mem_cons_self _ _))
      have hl := ih fuel (by simp at hf; omega) (fun v hv => hr v (List.mem_cons_of_mem _ hv))
      simp only [encTail, decTail, h1, if_true, if_false, hu, hl, Option.map_some']

/-- The text of the records after the first one is longer than their
number. -/
theorem length_encTail (l : List user) : l.length < (encTail l).length := by
  induction l with
  | nil => simp [encTail]
  | cons u l ih => simp [encTail]; omega

/-- Reading a printed collection gives the collection back. -/
theorem decUsers_encUsers (us : users) (h : ∀ u ∈ us.elems, u.inRange) :
    decUsers (encUsers us) = some us := by
  cases us with
  | nil => decide
  | slice l =>
    cases l with
    | nil => decide
    | cons u l =>
      have hu := decUser_encUser u (encTail l) (h u (List.mem_cons_self _ _))
      have hl := decTail_encTail l (encTail l).length (length_encTail l)
        (fun v hv => h v (List.mem_cons_of_mem _ hv))
      have hk : encUser u ++ encTail l = Char.ofNat 123 :: (encUser u ++ encTail l).tail := by
        simp [encUser, kId]
      have n1 : ('[' :: (encUser u ++ encTail l)) ≠ "null".data := by
        intro e
        exact absurd (List.cons.inj e).1 (by decide)
      have n2 : ('[' :: (encUser u ++ encTail l)) ≠ "[]".data := by
        rw [hk]
        intro e
        have e2 := (List.cons.inj (List.cons.inj e).2).1
        exact absurd e2 (by decide)
      simp only [encUsers, decUsers, n1, n2, if_true, if_false, hu, hl, Option.map_some']

/-- The printed text of a collection is never empty. -/
theorem encUsers_ne_nil (us : users) : encUsers us ≠ [] := by
  cases us with
  | nil => decide
  | slice l => cases l <;> simp [encUsers]

end JSON

/-- The concrete codec reads back every collection it prints, as long as the
ages fit a 64-bit `int`. -/
theorem goJSON_roundTrips (us : users) (h : ∀ u ∈ us.elems, u.inRange) :
    goJSON.RoundTrips us := by
  refine ⟨?_, ?_⟩
  · intro e
    exact JSON.encUsers_ne_nil us (congrArg String.data e)
  · simp [goJSON, JSON.decUsers_encUsers us h]

/-- The concrete codec reads back every record it prints. -/
theorem goJSON_user_roundTrip (u : user) (h : u.inRange) :
    goJSON.unmarshalUser (goJSON.marshalUser u) = .ok u := by
  have := JSON.decUser_encUser u [] h
  simp only [List.append_nil] at this
  simp [goJSON, this]

/-- On the concrete codec the round trip through the file needs no hypothesis
on the library: the write step followed by the read step yields the collection
written, for every collection whose ages fit a 64-bit `int`, whatever the file
held before. -/
theorem goJSON_write_then_read (c : users) (f : File) (h : ∀ u ∈ c.elems, u.inRange) :
    (readAll goJSON (writeToFile goJSON c f).2.state).1 = .ok c := by
  rw [writeToFile_eq, readAll_eq]
  exact stored_marshal goJSON c (goJSON_roundTrips c h)

/-! ## Claims about `add` -/

/-- C1: when the stored collection has a record with the id of the item, `add`
fails with `Item with id <id> already exists` and the file is exactly what it
was before the call. -/
theorem add_duplicate_id (J : Codec) (args : Arguments) (fs : FileState) (us : users)
    (u : user) (hst : stored J fs = .ok us)
    (hitem : J.unmarshalUser (args.val "item") = .ok u)
    (hdup : ∃ u2 ∈ us.elems, u2.Id = u.Id) :
    add J args fs = (some ("Item with id " ++ u.Id ++ " already exists"), fs) := by
  obtain ⟨u2, hmem, hid⟩ := hdup
  have hne : us.elems ≠ [] := List.ne_nil_of_mem hmem
  have hfs := present_of_stored_ne_nil J fs us hst hne
  have hsome : (us.elems.find? (fun v => v.Id = u.Id)).isSome = true := by
    rw [List.find?_isSome]
    exact ⟨u2, hmem, by simpa using hid⟩
  obtain ⟨v, hv⟩ := Option.isSome_iff_exists.1 hsome
  have hvid : v.Id = u.Id := by simpa using List.find?_some hv
  unfold add
  rw [readAll_eq, hst]
  simp only [hitem, hv, hvid, File.state, hfs]

/-- C1, on an instance: adding a second record with id `1` to a file that holds
`alice`. -/
theorem add_duplicate_id_witness :
    add goJSON [("item", itemAlice2)] (.present fileAlice)
      = (some "Item with id 1 already exists", .present fileAlice) :=
  add_duplicate_id goJSON [("item", itemAlice2)] (.present fileAlice) (.slice [alice]) alice2
    (by decide) (by decide) ⟨alice, by decide, by decide⟩

/-- C5: when no stored record has the id of the item, `add` succeeds and the
file then holds the encoding of the stored records, unchanged and in their
order, followed by the new record as the last one; when that text reads back,
the collection of the file is that sequence. -/
theorem add_appends (J : Codec) (args : Arguments) (fs : FileState) (us : users)
    (u : user) (hst : stored J fs = .ok us)
    (hitem : J.unmarshalUser (args.val "item") = .ok u)
    (hnew : ∀ u2 ∈ us.elems, u2.Id ≠ u.Id) :
    add J args fs = (none, .present (J.marshalUsers (.slice (us.elems ++ [u])))) ∧
    (J.RoundTrips (.slice (us.elems ++ [u])) →
      stored J (add J args fs).2 = .ok (.slice (us.elems ++ [u]))) := by
  have h : add J args fs = (none, .present (J.marshalUsers (.slice (us.elems ++ [u])))) := by
    unfold add
    rw [readAll_eq, hst]
    simp only [hitem, find?_none_of_ne us.elems u.Id hnew, writeToFile_eq, File.Close,
      File.state, users.append]
  refine ⟨h, fun hrt => ?_⟩
  rw [h]
  exact stored_marshal J _ hrt

/-- C5, on an instance: adding `bob` to a file that holds `alice`. -/
theorem add_appends_witness :
    add goJSON [("item", itemBob)] (.present fileAlice) = (none, .present fileAliceBob) ∧
    stored goJSON (add goJSON [("item", itemBob)] (.present fileAlice)).2
      = .ok (.slice [alice, bob]) :=
  have h := add_appends goJSON [("item", itemBob)] (.present fileAlice) (.slice [alice]) bob
    (by decide) (by decide) (by decide)
  ⟨h.1, h.2 (by decide)⟩

/-! ## Claims about `remove` -/

/-- C3, as the code has it: when no stored record carries the id, `remove`
fails with `Item with id <id> not found` and writes nothing: the bytes of the
file are what they were; an absent file has been created with zero bytes by
the read step. -/
theorem remove_unknown_id (J : Codec) (args : Arguments) (fs : FileState) (us : users)
    (hst : stored J fs = .ok us) (hno : ∀ u ∈ us.elems, u.Id ≠ args.val "id") :
    remove J args fs
      = .ret (some ("Item with id " ++ args.val "id" ++ " not found"), .present fs.bytes) := by
  have hloop : removeLoop (args.val "id") us.len 0
      { arr := us.elems, len := us.len, found := false }
      = .ret { arr := us.elems, len := us.len, found := false } := by
    apply removeLoop_skip
    intro j u _ _ hu
    exact hno u (List.getElem?_mem hu)
  unfold remove
  rw [readAll_eq, hst]
  simp only [hloop, File.state]
  rfl

/-- C3, on an instance: removing the id `3` from a file that holds `alice` and
`bob`. -/
theorem remove_unknown_id_witness :
    remove goJSON [("id", "3")] (.present fileAliceBob)
      = .ret (some "Item with id 3 not found", .present fileAliceBob) :=
  remove_unknown_id goJSON [("id", "3")] (.present fileAliceBob) (.slice [alice, bob])
    (by decide) (by decide)

/-- C3 as stated fails on an absent file: the file stands for the empty
collection, no record carries the id `1`, `remove` reports that the id is not
found, and the file, absent before the call, exists afterwards. -/
theorem remove_unknown_id_creates_file :
    stored goJSON .absent = .ok .nil ∧
    (∀ u ∈ users.nil.elems, u.Id ≠ "1") ∧
    remove goJSON [("id", "1")] .absent
      = .ret (some "Item with id 1 not found", .present "") ∧
    FileState.present "" ≠ FileState.absent := by
  decide

/-- C2 fails on a file with two records of one id.  With `alice` and `alice2`
stored, `remove` of the id `1` panics in the second iteration, on `us[2:]` of a
slice of length 1.  With `alice`, `alice2` and `bob` stored, `remove` succeeds
and writes back `alice2` and `bob`: a record with the id `1` is kept. -/
theorem remove_duplicate_ids :
    stored goJSON (.present fileAliceAlice2) = .ok (.slice [alice, alice2]) ∧
    remove goJSON [("id", "1")] (.present fileAliceAlice2)
      = .panic "runtime error: slice bounds out of range [2:1]" ∧
    stored goJSON (.present fileAliceAlice2Bob) = .ok (.slice [alice, alice2, bob]) ∧
    remove goJSON [("id", "1")] (.present fileAliceAlice2Bob)
      = .ret (none, .present fileAlice2Bob) ∧
    stored goJSON (.present fileAlice2Bob) = .ok (.slice [alice2, bob]) := by
  decide

/-- C10: when the ids of the stored records are pairwise distinct and one of
them is the id to remove, the delete loop of `remove` does not panic, `remove`
succeeds and writes back the stored records without the one that carries the
id, the others in their order; exactly one record is gone and the ids that
remain are pairwise distinct. -/
theorem remove_distinct_ids (J : Codec) (args : Arguments) (fs : FileState) (us : users)
    (hst : stored J fs = .ok us) (hnd : (us.elems.map user.Id).Nodup)
    (hx : args.val "id" ∈ us.elems.map user.Id) :
    remove J args fs
      = .ret (none, .present (J.marshalUsers
          (.slice (us.elems.filter (fun u => u.Id ≠ args.val "id"))))) ∧
    (us.elems.filter (fun u => u.Id ≠ args.val "id")).length + 1 = us.elems.length ∧
    ((us.elems.filter (fun u => u.Id ≠ args.val "id")).map user.Id).Nodup := by
  obtain ⟨r, hrmem, hrid⟩ := List.mem_map.1 hx
  obtain ⟨pre, post, hsplit⟩ := List.append_of_mem hrmem
  rw [hsplit, List.map_append, List.map_cons] at hnd
  have hnd2 := List.nodup_middle.1 hnd
  have hnotin : r.Id ∉ pre.map user.Id ++ post.map user.Id := (List.nodup_cons.1 hnd2).1
  have hpre : ∀ u ∈ pre, u.Id ≠ args.val "id" := by
    intro u hu he
    exact hnotin (List.mem_append_left _ (List.mem_map.2 ⟨u, hu, by rw [he, hrid]⟩))
  have hpost : ∀ u ∈ post, u.Id ≠ args.val "id" := by
    intro u hu he
    exact hnotin (List.mem_append_right _ (List.mem_map.2 ⟨u, hu, by rw [he, hrid]⟩))
  have hfil := filter_single pre post r (args.val "id") hrid hpre hpost
  rw [hsplit, hfil]
  refine ⟨remove_single J args fs pre post r us hst hsplit hrid hpre hpost, by simp; omega, ?_⟩
  rw [List.map_append]
  exact (List.nodup_cons.1 hnd2).2

/-- C10, on an instance: removing the id `1` from a file that holds `alice` and
`bob`. -/
theorem remove_distinct_ids_witness :
    remove goJSON [("id", "1")] (.present fileAliceBob) = .ret (none, .present fileBob) :=
  (remove_distinct_ids goJSON [("id", "1")] (.present fileAliceBob) (.slice [alice, bob])
    (by decide) (by decide) (by decide)).1

/-- C7: when no stored record has the id of the item and the text written by
`add` reads back, `add` of the item and then `remove` of its id both succeed
and the file then holds the encoding of the records stored at the start, in
their order; for an absent or empty file that is the collection without
records. -/
theorem add_then_remove (J : Codec) (argsA argsR : Arguments) (fs : FileState)
    (us : users) (u : user) (hst : stored J fs = .ok us)
    (hitem : J.unmarshalUser (argsA.val "item") = .ok u)
    (hid : argsR.val "id" = u.Id)
    (hnew : ∀ u2 ∈ us.elems, u2.Id ≠ u.Id)
    (hrt : J.RoundTrips (.slice (us.elems ++ [u]))) :
    (add J argsA fs).1 = none ∧
    remove J argsR (add J argsA fs).2
      = .ret (none, .present (J.marshalUsers (.slice us.elems))) ∧
    (J.RoundTrips (.slice us.elems) →
      stored J (.present (J.marshalUsers (.slice us.elems))) = .ok (.slice us.elems)) := by
  have hadd := (add_appends J argsA fs us u hst hitem hnew).1
  have hst1 := stored_marshal J _ hrt
  have hrem := remove_single J argsR (.present (J.marshalUsers (.slice (us.elems ++ [u]))))
    us.elems [] u (.slice (us.elems ++ [u])) hst1 rfl hid.symm
    (fun v hv => by rw [hid]; exact hnew v hv) (fun v hv => by simp at hv)
  rw [hadd]
  refine ⟨rfl, ?_, fun h => stored_marshal J _ h⟩
  simpa using hrem

/-- C7, on an instance: on an empty file, `add` of `alice` and then `remove` of
the id `1` leave the file with the encoding `[]` of the collection without
records. -/
theorem add_then_remove_witness :
    (add goJSON [("item", itemAlice)] (.present "")).1 = none ∧
    remove goJSON [("id", "1")] (add goJSON [("item", itemAlice)] (.present "")).2
      = .ret (none, .present "[]") ∧
    stored goJSON (.present "[]") = .ok (.slice []) :=
  have h := add_then_remove goJSON [("item", itemAlice)] [("id", "1")] (.present "") .nil alice
    (by decide) (by decide) (by decide) (by decide) (by decide)
  ⟨h.1, h.2.1, h.2.2 (by decide)⟩

/-! ## Claims about `list` and `findById` -/

/-- C6: with a writer that accepts the write, `list` succeeds and writes no
bytes when the file is absent, has zero bytes or decodes to a collection
without records, and otherwise writes the encoding of the whole decoded
collection. -/
theorem list_output (J : Codec) (args : Arguments) (w : Writer) (hw : w.fail = none) :
    list J args w .absent = (none, w, .present "") ∧
    list J args w (.present "") = (none, w, .present "") ∧
    (∀ data us, data ≠ "" → J.unmarshalUsers data = .ok us → us.elems = [] →
      list J args w (.present data) = (none, w, .present data)) ∧
    (∀ data us, data ≠ "" → J.unmarshalUsers data = .ok us → us.elems ≠ [] →
      list J args w (.present data)
        = (none, { w with buf := w.buf ++ J.marshalUsers us }, .present data)) := by
  have hw0 : w.Write "" = (w, none) := by
    cases w with
    | mk buf fail =>
      simp only at hw
      subst hw
      simp [Writer.Write]
  refine ⟨?_, ?_, ?_, ?_⟩
  · simp [list, readAll_eq, stored, FileState.bytes, users.len, users.elems, hw0, File.state]
  · simp [list, readAll_eq, stored, FileState.bytes, users.len, users.elems, hw0, File.state]
  · intro data us hne hdec hnil
    simp [list, readAll_eq, stored, FileState.bytes, users.len, hne, hdec, hnil, hw0, File.state]
  · intro data us hne hdec hnn
    have hlen : ¬ us.elems.length = 0 := fun h => hnn (List.length_eq_zero.1 h)
    simp [list, readAll_eq, stored, FileState.bytes, users.len, hne, hdec, hlen, Writer.Write,
      hw, File.state]

/-- C6, on an instance: `list` on a file that holds `alice` and `bob`, and on a
file that holds `[]`. -/
theorem list_output_witness :
    list goJSON [] stdout0 (.present fileAliceBob)
      = (none, { buf := fileAliceBob, fail := none }, .present fileAliceBob) ∧
    list goJSON [] stdout0 (.present "[]") = (none, stdout0, .present "[]") :=
  have h := list_output goJSON [] stdout0 rfl
  ⟨h.2.2.2 fileAliceBob (.slice [alice, bob]) (by decide) (by decide) (by decide),
   h.2.2.1 "[]" (.slice []) (by decide) (by decide) (by decide)⟩

/-- C4: when no stored record has the id of the item and the text written by
`add` reads back, `add` succeeds and `findById` of that id then succeeds and
writes to the writer the encoding of the record just added. -/
theorem add_then_findById (J : Codec) (argsA argsF : Arguments) (w : Writer)
    (fs : FileState) (us : users) (u : user) (hst : stored J fs = .ok us)
    (hitem : J.unmarshalUser (argsA.val "item") = .ok u)
    (hid : argsF.val "id" = u.Id)
    (hnew : ∀ u2 ∈ us.elems, u2.Id ≠ u.Id)
    (hrt : J.RoundTrips (.slice (us.elems ++ [u])))
    (hw : w.fail = none) :
    (add J argsA fs).1 = none ∧
    findById J argsF w (add J argsA fs).2
      = (none, { w with buf := w.buf ++ J.marshalUser u }, (add J argsA fs).2) := by
  have hadd := (add_appends J argsA fs us u hst hitem hnew).1
  have hst1 := stored_marshal J _ hrt
  have hfind : (us.elems ++ [u]).find? (fun v => v.Id = argsF.val "id") = some u :=
    find?_append_single us.elems u [] _ (fun v hv => by rw [hid]; exact hnew v hv) hid.symm
  rw [hadd]
  refine ⟨rfl, ?_⟩
  have he : (users.slice (us.elems ++ [u])).elems = us.elems ++ [u] := rfl
  unfold findById
  rw [readAll_eq, hst1]
  simp only [he, hfind, Writer.Write, hw, File.state, FileState.bytes]

/-- C4, on an instance: `add` of `bob` to a file that holds `alice`, then
`findById` of the id `2`. -/
theorem add_then_findById_witness :
    (add goJSON [("item", itemBob)] (.present fileAlice)).1 = none ∧
    findById goJSON [("id", "2")] stdout0 (add goJSON [("item", itemBob)] (.present fileAlice)).2
      = (none, { buf := itemBob, fail := none }, .present fileAliceBob) :=
  add_then_findById goJSON [("item", itemBob)] [("id", "2")] stdout0 (.present fileAlice)
    (.slice [alice]) bob (by decide) (by decide) (by decide) (by decide) (by decide) rfl

/-! ## The round trip through the file -/

/-- C8: the write step leaves in the file exactly the encoding of the
collection, whatever the file held before and wherever the offset was; when
that text reads back, the read step then yields the collection that was
written. -/
theorem writeToFile_readAll (J : Codec) (c : users) (f : File) (hrt : J.RoundTrips c) :
    (writeToFile J c f).1 = none ∧
    (writeToFile J c f).2.data = J.marshalUsers c ∧
    (readAll J (writeToFile J c f).2.state).1 = .ok c := by
  rw [writeToFile_eq]
  refine ⟨rfl, rfl, ?_⟩
  rw [readAll_eq]
  exact stored_marshal J c hrt

/-- C8, on an instance: writing the collection of `bob` over a longer file that
was read to its end, then reading the file. -/
theorem writeToFile_readAll_witness :
    (writeToFile goJSON (.slice [bob])
        { data := fileAliceAlice2Bob, off := fileAliceAlice2Bob.length }).2.data = fileBob ∧
    (readAll goJSON (writeToFile goJSON (.slice [bob])
        { data := fileAliceAlice2Bob, off := fileAliceAlice2Bob.length }).2.state).1
      = .ok (.slice [bob]) :=
  have h := writeToFile_readAll goJSON (.slice [bob])
    { data := fileAliceAlice2Bob, off := fileAliceAlice2Bob.length } (by decide)
  ⟨h.2.1, h.2.2⟩

/-! ## Claims about `Perform` -/

/-- With a writer that accepts the write, the tail of `Perform` turns an error
of the operation into its text on the writer and a nil result. -/
theorem performTail_some (e : String) (w : Writer) (hw : w.fail = none) :
    performTail (some e) w = (none, { w with buf := w.buf ++ e }) := by
  simp [performTail, Writer.Write, hw]

/-- With a writer that accepts the write, `list` that fails has written
nothing. -/
theorem list_fail_writer (J : Codec) (args : Arguments) (w : Writer) (fs : FileState)
    (hw : w.fail = none) (e : String) (h : (list J args w fs).1 = some e) :
    (list J args w fs).2.1 = w := by
  unfold list at h ⊢
  rw [readAll_eq] at h ⊢
  cases hs : stored J fs with
  | error e1 => rfl
  | ok us =>
    rw [hs] at h
    simp [Writer.Write, hw] at h

/-- With a writer that accepts the write, `findById` that fails has written
nothing. -/
theorem findById_fail_writer (J : Codec) (args : Arguments) (w : Writer) (fs : FileState)
    (hw : w.fail = none) (e : String) (h : (findById J args w fs).1 = some e) :
    (findById J args w fs).2.1 = w := by
  unfold findById at h ⊢
  rw [readAll_eq] at h ⊢
  cases hs : stored J fs with
  | error e1 => rfl
  | ok us =>
    rw [hs] at h
    simp only at h ⊢
    cases hf : us.elems.find? (fun u => u.Id = args.val "id") with
    | none => rfl
    | some u =>
      rw [hf] at h
      simp [Writer.Write, hw] at h

/-- C9, as the code has it, for a writer that accepts the write.  A missing
flag or an unknown operation makes `Perform` return the error, with nothing
written to the writer and the file untouched, and the driver panics with it.
A failure of the operation itself (malformed JSON, duplicate id, id not found)
makes `Perform` write the text of the error to the writer and return nil, and
the driver returns normally. -/
theorem Perform_failures (J : Codec) (args : Arguments) (w : Writer) (fs : FileState)
    (hw : w.fail = none) :
    (∀ e, flagFailure args = some e →
      Perform J args w fs = .ret (some e, w, fs) ∧ mainWith J args w fs = .panic e) ∧
    (∀ e, flagFailure args = none → args.val "operation" = "list" →
      (list J args w fs).1 = some e →
      Perform J args w fs
        = .ret (none, { w with buf := w.buf ++ e }, (list J args w fs).2.2) ∧
      mainWith J args w fs = .ret ({ w with buf := w.buf ++ e }, (list J args w fs).2.2)) ∧
    (∀ e, flagFailure args = none → args.val "operation" = "add" →
      (add J args fs).1 = some e →
      Perform J args w fs = .ret (none, { w with buf := w.buf ++ e }, (add J args fs).2) ∧
      mainWith J args w fs = .ret ({ w with buf := w.buf ++ e }, (add J args fs).2)) ∧
    (∀ e fs1, flagFailure args = none → args.val "operation" = "remove" →
      remove J args fs = .ret (some e, fs1) →
      Perform J args w fs = .ret (none, { w with buf := w.buf ++ e }, fs1) ∧
      mainWith J args w fs = .ret ({ w with buf := w.buf ++ e }, fs1)) ∧
    (∀ e, flagFailure args = none → args.val "operation" = "findById" →
      (findById J args w fs).1 = some e →
      Perform J args w fs
        = .ret (none, { w with buf := w.buf ++ e }, (findById J args w fs).2.2) ∧
      mainWith J args w fs
        = .ret ({ w with buf := w.buf ++ e }, (findById J args w fs).2.2)) := by
  refine ⟨?_, ?_, ?_, ?_, ?_⟩
  · intro e he
    have key : Perform J args w fs = .ret (some e, w, fs) := by
      unfold flagFailure at he
      unfold Perform
      split_ifs at he ⊢ <;> simp_all
    exact ⟨key, by simp [mainWith, key]⟩
  · intro e hf hop hl
    have hwr := list_fail_writer J args w fs hw e hl
    have key : Perform J args w fs
        = .ret (none, { w with buf := w.buf ++ e }, (list J args w fs).2.2) := by
      unfold flagFailure at hf
      unfold Perform
      split_ifs at hf ⊢
      simp only [hl, hwr, performTail_some e w hw]
    exact ⟨key, by simp [mainWith, key]⟩
  · intro e hf hop ha
    have key : Perform J args w fs
        = .ret (none, { w with buf := w.buf ++ e }, (add J args fs).2) := by
      unfold flagFailure at hf
      unfold Perform
      split_ifs at hf ⊢ <;> simp_all [performTail_some e w hw]
    exact ⟨key, by simp [mainWith, key]⟩
  · intro e fs1 hf hop hr
    have key : Perform J args w fs = .ret (none, { w with buf := w.buf ++ e }, fs1) := by
      unfold flagFailure at hf
      unfold Perform
      split_ifs at hf ⊢ <;> simp_all [performTail_some e w hw]
    exact ⟨key, by simp [mainWith, key]⟩
  · intro e hf hop hl
    have hwr := findById_fail_writer J args w fs hw e hl
    have key : Perform J args w fs
        = .ret (none, { w with buf := w.buf ++ e }, (findById J args w fs).2.2) := by
      unfold flagFailure at hf
      unfold Perform
      split_ifs at hf ⊢ <;> simp_all [performTail_some e w hw]
    exact ⟨key, by simp [mainWith, key]⟩

/-- C9, on an instance: an `add` of a duplicate id through `Perform`, and an
unknown operation. -/
theorem Perform_failures_witness :
    Perform goJSON argsAddAlice2 stdout0 (.present fileAlice)
      = .ret (none, { buf := "Item with id 1 already exists", fail := none },
          .present fileAlice) ∧
    Perform goJSON [("operation", "sort"), ("fileName", "users.json")] stdout0 .absent
      = .ret (some "Operation sort not allowed!", stdout0, .absent) :=
  have h := Perform_failures goJSON argsAddAlice2 stdout0 (.present fileAlice) rfl
  have g := Perform_failures goJSON [("operation", "sort"), ("fileName", "users.json")]
    stdout0 .absent rfl
  ⟨(h.2.2.1 "Item with id 1 already exists" (by decide) (by decide) (by decide)).1,
   (g.1 "Operation sort not allowed!" (by decide)).1⟩

/-- C9 as stated fails.  An `add` of an id that is stored fails in `add`, yet
`Perform` returns nil after writing the text to the writer, and the driver
returns normally.  A missing `-operation` flag makes `Perform` return the
error, yet nothing is written to the writer. -/
theorem Perform_error_not_returned :
    (add goJSON argsAddAlice2 (.present fileAlice)).1 = some "Item with id 1 already exists" ∧
    Perform goJSON argsAddAlice2 stdout0 (.present fileAlice)
      = .ret (none, { buf := "Item with id 1 already exists", fail := none },
          .present fileAlice) ∧
    mainWith goJSON argsAddAlice2 stdout0 (.present fileAlice)
      = .ret ({ buf := "Item with id 1 already exists", fail := none }, .present fileAlice) ∧
    Perform goJSON [("fileName", "users.json")] stdout0 (.present fileAlice)
      = .ret (some "-operation flag has to be specified", stdout0, .present fileAlice) := by
  decide

end UserStore
